import Mathlib

/-!
Verification development for the file_processor repository.

The Python source (src/file_processor.py) is shallowly embedded below:
pure functions become Lean functions; the mutable `self.stats` /
`self.detailed_results` state is threaded explicitly as a `ProcState`
value; the filesystem is an explicit `FS` value; the fallible copy
primitive (`shutil.copy2`) is an oracle argument; Python exceptions
inside `find_matching_sections` are modelled with `Except`.

The matcher calls `pandas.Series.str.contains(pat, case=False, na=False)`,
which by default interprets `pat` as a regular expression (it is compiled
with `re.compile` and applied with `re.search`, raising `re.error` on an
invalid pattern).  This is embedded with a Brzozowski-derivative matcher
over a regex AST together with a compiler from the Python pattern syntax.
The compiler covers the fragment of Python regex syntax exercised by the
program and the claims: literal characters, `(...)` groups, `|`, `.`,
postfix `*` `+` `?`, and backslash-escaped punctuation; other
metacharacters (`[`, `{`, `^`, `$`) make compilation fail (return
`none`), as does any syntactically invalid pattern such as an unbalanced
`(` (which also fails in Python, with `re.error`).  The `case=False` flag
(re.IGNORECASE) is modelled by lowercasing the pattern and the subject,
which is adequate for the ASCII patterns at issue.
-/

/-- Regular-expression AST for the fragment of Python `re` used by the
program.  `anyc` (any character) only arises internally, to express
`re.search` as a whole-string match; `dot` is the pattern metacharacter
`.` (any character except newline). -/
inductive RE where
  | emp : RE
  | eps : RE
  | chr : Char → RE
  | anyc : RE
  | dot : RE
  | alt : RE → RE → RE
  | cat : RE → RE → RE
  | star : RE → RE
deriving DecidableEq

/-- Nullability: whether the regex accepts the empty string. -/
def RE.nullable : RE → Bool
  | .emp => false
  | .eps => true
  | .chr _ => false
  | .anyc => false
  | .dot => false
  | .alt r s => r.nullable || s.nullable
  | .cat r s => r.nullable && s.nullable
  | .star _ => true

/-- Brzozowski derivative of a regex by one character. -/
def RE.deriv : RE → Char → RE
  | .emp, _ => .emp
  | .eps, _ => .emp
  | .chr a, c => if a = c then .eps else .emp
  | .anyc, _ => .eps
  | .dot, c => if c = '\n' then .emp else .eps
  | .alt r s, c => .alt (r.deriv c) (s.deriv c)
  | .cat r s, c =>
    if r.nullable then .alt (.cat (r.deriv c) s) (s.deriv c)
    else .cat (r.deriv c) s
  | .star r, c => .cat (r.deriv c) (.star r)

/-- Whole-string match by iterated derivatives. -/
def reMatchList (r : RE) (cs : List Char) : Bool :=
  (cs.foldl RE.deriv r).nullable

/-- Python `re.search`: the regex matches some substring, expressed as a
whole-string match of `.*  r  .*` (with true any-character padding). -/
def reSearch (r : RE) (cs : List Char) : Bool :=
  reMatchList (.cat (.star .anyc) (.cat r (.star .anyc))) cs

/-- Metacharacters of the supported Python regex fragment.  `]` and `}`
are literal when unmatched, exactly as in Python; `[`, `{`, `^`, `$`
start constructs outside the supported fragment, so patterns holding
them fail to compile here. -/
def pyMetachars : List Char :=
  ['(', ')', '|', '*', '+', '?', '.', '\\', '[', '{', '^', '$']

/-- A character that the pattern compiler treats as a literal. -/
def ordinaryChar (c : Char) : Bool := !(pyMetachars.contains c)

mutual

/-- Parse an alternation `concat ('|' alternation)?`. -/
def parseAlt : Nat → List Char → Option (RE × List Char)
  | 0, _ => none
  | fuel+1, cs =>
    match parseConcat fuel cs with
    | none => none
    | some (r, rest) =>
      match rest with
      | '|' :: rest2 =>
        match parseAlt fuel rest2 with
        | none => none
        | some (r2, rest3) => some (.alt r r2, rest3)
      | _ => some (r, rest)

/-- Parse a concatenation of repeated atoms, stopping at `)` or `|`. -/
def parseConcat : Nat → List Char → Option (RE × List Char)
  | 0, _ => none
  | _+1, [] => some (.eps, [])
  | fuel+1, c :: rest =>
    if c = ')' ∨ c = '|' then some (.eps, c :: rest)
    else
      match parseRepeat fuel (c :: rest) with
      | none => none
      | some (r, rest2) =>
        match parseConcat fuel rest2 with
        | none => none
        | some (r2, rest3) => some (.cat r r2, rest3)

/-- Parse an atom with an optional postfix `*`, `+` or `?`. -/
def parseRepeat : Nat → List Char → Option (RE × List Char)
  | 0, _ => none
  | fuel+1, cs =>
    match parseAtom fuel cs with
    | none => none
    | some (r, rest) =>
      match rest with
      | c :: rest2 =>
        if c = '*' then some (.star r, rest2)
        else if c = '+' then some (.cat r (.star r), rest2)
        else if c = '?' then some (.alt r .eps, rest2)
        else some (r, rest)
      | [] => some (r, [])

/-- Parse one atom: a group, `.`, an escaped punctuation character, or a
literal character. -/
def parseAtom : Nat → List Char → Option (RE × List Char)
  | 0, _ => none
  | _+1, [] => none
  | fuel+1, c :: rest =>
    if c = '(' then
      match parseAlt fuel rest with
      | some (r, ')' :: rest3) => some (r, rest3)
      | _ => none
    else if c = '.' then some (.dot, rest)
    else if c = '\\' then
      match rest with
      | [] => none
      | c2 :: rest2 => if c2.isAlphanum then none else some (.chr c2, rest2)
    else if pyMetachars.contains c then none
    else some (.chr c, rest)

end

/-- Compile a Python regex pattern to the AST, or fail as `re.compile`
fails with `re.error`. -/
def compilePattern (s : String) : Option RE :=
  match parseAlt (4 * s.length + 4) s.data with
  | some (r, []) => some r
  | _ => none

/-- Python `str.lower()` (per-character; adequate for ASCII). -/
def pyLowerStr (s : String) : String := ⟨s.data.map Char.toLower⟩

/-- Behaviour of `Series.str.contains(pat, case=False, na=False)` on one
cell: compile the (lowercased) pattern as a regex and search in the
lowercased subject.  `none` from the compiler corresponds to the
`re.error` that pandas lets propagate; callers below turn that into the
modelled exception path. -/
def pyStrContainsCI (pat subj : String) : Bool :=
  match compilePattern (pyLowerStr pat) with
  | some r => reSearch r (pyLowerStr subj).data
  | none => false

/-- Literal substring containment (case-insensitive).  Modelled from the
spec: the design requires literal substring containment semantics for
the matcher, not regex semantics; this definition follows the spec words
and is compared against the code semantics `pyStrContainsCI`. -/
def spec_literalSelects (key title : String) : Bool :=
  let pat := (pyLowerStr ("Sections - " ++ key)).data
  let t := (pyLowerStr title).data
  (List.range (t.length + 1)).any (fun i => pat.isPrefixOf (t.drop i))

/-! Data model: rows of the two spreadsheets and the bookkeeping state of
`FileProcessor` (`self.stats` and `self.detailed_results`). -/

/-- A row of the architect spreadsheet: column A (filename), column B
(title). -/
structure CatalogEntry where
  filename : String
  title : String
deriving DecidableEq

/-- One match produced by `find_matching_sections` (the Python
`match_info` dict). -/
structure MatchInfo where
  flat_ref : String
  title : String
  filename : String
  row_index : Nat
deriving DecidableEq

/-- An entry of `detailed_results['all_section_files']` /
`['unused_section_files']`. -/
structure SectionFile where
  filename : String
  title : String
  matched : Bool
deriving DecidableEq

/-- An entry of `detailed_results['no_matches_found']`. -/
structure NoMatchRecord where
  flat_ref : String
  reason : String
deriving DecidableEq

/-- An entry of `detailed_results['file_not_found']`. -/
structure FileNotFoundRecord where
  flat_ref : String
  title : String
  filename : String
  expected_path : String
  reason : String
deriving DecidableEq

/-- An entry of `detailed_results['copy_errors']`. -/
structure CopyErrorRecord where
  flat_ref : String
  title : String
  filename : String
  source_path : String
  error : String
deriving DecidableEq

/-- An entry of `detailed_results['successful_matches']`. -/
structure SuccessRecord where
  flat_ref : String
  title : String
  original_filename : String
  new_filename : String
  source_path : String
  destination_path : String
  destination_folder : String
deriving DecidableEq

/-- The `self.stats` counters. -/
structure Stats where
  processed : Nat
  matched : Nat
  not_found : Nat
  copy_errors : Nat
deriving DecidableEq

/-- The `self.detailed_results` dict. -/
structure DetailedResults where
  successful_matches : List SuccessRecord
  no_matches_found : List NoMatchRecord
  file_not_found : List FileNotFoundRecord
  copy_errors : List CopyErrorRecord
  unused_section_files : List SectionFile
  all_flat_refs : List String
  all_section_files : List SectionFile
deriving DecidableEq

/-- Mutable processor state (`self.stats`, `self.detailed_results`). -/
structure ProcState where
  stats : Stats
  results : DetailedResults
deriving DecidableEq

/-- The state set up by `FileProcessor.__init__`. -/
def initState : ProcState := ⟨⟨0, 0, 0, 0⟩, ⟨[], [], [], [], [], [], []⟩⟩

/-! Reference extractor (`get_flat_references`). -/

/-- Pandas `Series.unique()`: deduplicate by value, keeping first-seen
order.  Applied to the raw (untrimmed) cell values, as in the source. -/
def uniqueFirstSeen (xs : List String) : List String :=
  xs.foldl (fun acc x => if acc.contains x then acc else acc ++ [x]) []

/-- The filter applied to each trimmed value: skip empty strings, the
header label, and anything beginning with the literal "Flat". -/
def keepRef (s : String) : Bool :=
  !(s == "") && !(s == "Flat / House Ref") && !(s.startsWith "Flat")

/-- Python `str.strip()`: drop leading and trailing whitespace
characters (`Char.isWhitespace` covers the ASCII whitespace that
matters here). -/
def pyStrip (s : String) : String :=
  ⟨((s.data.dropWhile Char.isWhitespace).reverse.dropWhile Char.isWhitespace).reverse⟩

/-- `FileProcessor.get_flat_references`: column D cells (`none` for NaN,
dropped by `.dropna()`), deduplicated with `.unique()`, then each value
stripped and filtered. -/
def get_flat_references (colD : List (Option String)) : List String :=
  let flat_refs_raw := uniqueFirstSeen (colD.filterMap id)
  flat_refs_raw.foldl
    (fun acc ref =>
      let ref_str := pyStrip ref
      if keepRef ref_str then acc ++ [ref_str] else acc)
    []

/-! Matcher (`find_matching_sections`). -/

/-- The per-row selection test the code applies for a flat reference:
`titles.str.contains("Sections - " + flat_ref, case=False, na=False)`. -/
def codeSelects (flat_ref title : String) : Bool :=
  pyStrContainsCI ("Sections - " ++ flat_ref) title

/-- The rows of the section mask
`titles.str.contains("Sections", case=False, na=False)`, turned into the
`all_section_files` records (initially unmatched).  The fixed pattern
"Sections" always compiles, so its `re.error` path cannot arise. -/
def sectionMaskFiles (catalog : List CatalogEntry) : List SectionFile :=
  catalog.filterMap
    (fun e => if pyStrContainsCI "Sections" e.title then some ⟨e.filename, e.title, false⟩ else none)

/-- Indices and rows selected for one flat reference, in catalog scan
order (the pandas row index is the position). -/
def selectRowsFor (flat_ref : String) : Nat → List CatalogEntry → List (Nat × CatalogEntry)
  | _, [] => []
  | i, e :: rest =>
    if codeSelects flat_ref e.title then (i, e) :: selectRowsFor flat_ref (i + 1) rest
    else selectRowsFor flat_ref (i + 1) rest

/-- Mark the first `all_section_files` record with the given filename and
title as matched (the Python loop with `break`). -/
def markFirst (fname title : String) : List SectionFile → List SectionFile
  | [] => []
  | sf :: rest =>
    if sf.filename = fname ∧ sf.title = title then ⟨sf.filename, sf.title, true⟩ :: rest
    else sf :: markFirst fname title rest

/-- The inner loop over the matching rows of one flat reference: append a
match record, mark the section file, and bump the `matched` counter, per
row. -/
def processHits (flat_ref : String) :
    List (Nat × CatalogEntry) → List MatchInfo → ProcState → List MatchInfo × ProcState
  | [], acc, st => (acc, st)
  | (idx, e) :: rest, acc, st =>
    let m : MatchInfo := ⟨flat_ref, e.title, e.filename, idx⟩
    let st2 : ProcState :=
      ⟨{ st.stats with matched := st.stats.matched + 1 },
       { st.results with all_section_files := markFirst e.filename e.title st.results.all_section_files }⟩
    processHits flat_ref rest (acc ++ [m]) st2

/-- The loop `for flat_ref in flat_refs` of `find_matching_sections`.
When the derived pattern fails to compile, `str.contains` raises
`re.error`; the surrounding `except` then discards the local `matches`
list and returns, with all state mutations made so far kept — modelled
by `Except.error` carrying the state at the raise point. -/
def matchLoop (catalog : List CatalogEntry) :
    List String → List MatchInfo → ProcState → Except ProcState (List MatchInfo × ProcState)
  | [], acc, st => .ok (acc, st)
  | flat_ref :: rest, acc, st =>
    let st1 : ProcState := ⟨{ st.stats with processed := st.stats.processed + 1 }, st.results⟩
    if (compilePattern (pyLowerStr ("Sections - " ++ flat_ref))).isSome then
      let hits := selectRowsFor flat_ref 0 catalog
      if hits.isEmpty then
        matchLoop catalog rest acc
          ⟨{ st1.stats with not_found := st1.stats.not_found + 1 },
           { st1.results with no_matches_found := st1.results.no_matches_found ++
              [⟨flat_ref, "No matching section found in architect spreadsheet"⟩] }⟩
      else
        let r := processHits flat_ref hits acc st1
        matchLoop catalog rest r.1 r.2
    else .error st1

/-- The state mutations `find_matching_sections` performs before the key
loop: record `all_flat_refs` and append the section-mask records to
`all_section_files`. -/
def preMatchState (flat_refs : List String) (catalog : List CatalogEntry)
    (st0 : ProcState) : ProcState :=
  ⟨st0.stats,
   { st0.results with
      all_flat_refs := flat_refs,
      all_section_files := st0.results.all_section_files ++ sectionMaskFiles catalog }⟩

/-- The post-loop computation of `unused_section_files`: every section
file still unmarked is appended. -/
def addUnused (st : ProcState) : ProcState :=
  ⟨st.stats,
   { st.results with unused_section_files := st.results.unused_section_files ++
      st.results.all_section_files.filter (fun sf => !sf.matched) }⟩

/-- `FileProcessor.find_matching_sections`.  Returns the `matches` list
and the updated state.  On the modelled `re.error` the `except` handler
returns `[]`, skipping the computation of `unused_section_files`. -/
def find_matching_sections (flat_refs : List String) (catalog : List CatalogEntry)
    (st0 : ProcState) : List MatchInfo × ProcState :=
  match matchLoop catalog flat_refs [] (preMatchState flat_refs catalog st0) with
  | .error stE => ([], stE)
  | .ok (ms, st3) => (ms, addUnused st3)

/-! Materializer (`generate_new_filename`, `create_output_structure`,
`copy_file`, `process_files`). -/

/-- Python `flat_ref.replace(" ", "")`: every space character (exactly
U+0020) is removed. -/
def removeSpaces (s : String) : String := ⟨s.data.filter (fun c => c ≠ ' ')⟩

/-- Python `s.rsplit(".", 1)` when `"." in s`: the characters before and
after the last dot; `none` when the string has no dot. -/
def rsplitDot (s : String) : Option (String × String) :=
  let rev := s.data.reverse
  if rev.contains '.' then
    let afterRev := rev.takeWhile (fun c => c ≠ '.')
    some (⟨(rev.drop (afterRev.length + 1)).reverse⟩, ⟨afterRev.reverse⟩)
  else none

/-- `FileProcessor.generate_new_filename`: remove spaces from the flat
reference, split the original filename at its last dot (defaulting the
extension to ".pdf" when it has none), and assemble
`drawingtype_housetype_originalname.ext`.  The only call site passes the
default `drawing_type="sections"` explicitly here. -/
def generate_new_filename (original_filename flat_ref drawing_type : String) : String :=
  let house_type := removeSpaces flat_ref
  match rsplitDot original_filename with
  | some (orig_name, ext) =>
    drawing_type ++ "_" ++ house_type ++ "_" ++ orig_name ++ ("." ++ ext)
  | none =>
    drawing_type ++ "_" ++ house_type ++ "_" ++ original_filename ++ ".pdf"

/-- Python `s.endswith(t)` on character lists. -/
def pyEndsWith (s t : String) : Bool := t.data.isSuffixOf s.data

/-- The test `source_filename.lower().endswith('.pdf')`. -/
def pyEndsWithPdf (s : String) : Bool := pyEndsWith (pyLowerStr s) ".pdf"

/-- The source filename actually looked up: `.pdf` appended unless the
name already ends with `.pdf` case-insensitively. -/
def resolvedSourceName (source_filename : String) : String :=
  if pyEndsWithPdf source_filename then source_filename else source_filename ++ ".pdf"

/-- A filesystem: the set of directories and the files (path, content).
The copy collaborator and the report sink are external per the spec. -/
structure FS where
  dirs : List String
  files : List (String × String)
deriving DecidableEq

/-- Look a path up in a file table. -/
def lookupIn (files : List (String × String)) (p : String) : Option String :=
  (files.find? (fun kv => kv.1 = p)).map (fun kv => kv.2)

/-- `Path.exists` / read for the model. -/
def lookupFile (fs : FS) (p : String) : Option String := lookupIn fs.files p

/-- Write (or overwrite) a file, as `shutil.copy2` does at the
destination. -/
def writeFile (fs : FS) (p v : String) : FS :=
  ⟨fs.dirs, (fs.files.filter (fun kv => kv.1 ≠ p)) ++ [(p, v)]⟩

/-- `Path.mkdir(parents=True, exist_ok=True)`: idempotent directory
creation. -/
def mkdirP (fs : FS) (p : String) : FS :=
  if fs.dirs.contains p then fs else ⟨fs.dirs ++ [p], fs.files⟩

/-- Path join (`/` on `pathlib.Path`). -/
def pjoin (a b : String) : String := a ++ "/" ++ b

/-- `FileProcessor.create_output_structure`: `processed_path / flat_ref`,
created recursively and idempotently.  Directory creation failure is not
modelled (the model filesystem always accepts a mkdir). -/
def create_output_structure (processed_path flat_ref : String) (fs : FS) : String × FS :=
  let output_path := pjoin processed_path flat_ref
  (output_path, mkdirP fs output_path)

/-- `FileProcessor.copy_file`.  `copyBeh src dst` is the oracle for the
`shutil.copy2` call: `none` means the copy succeeds, `some e` means it
raises an exception rendered as the string `e` (permissions, disk full,
I/O error); the function-level `except` turns that into a recorded copy
error.  Returns the Python return value, the filesystem, and the state. -/
def copy_file (architect_path source_filename destination_path : String) (m : MatchInfo)
    (copyBeh : String → String → Option String) (fs : FS) (st : ProcState) :
    Bool × FS × ProcState :=
  let source_filename_with_ext := resolvedSourceName source_filename
  let source_file := pjoin architect_path source_filename_with_ext
  match lookupFile fs source_file with
  | none =>
    (false, fs,
     ⟨{ st.stats with copy_errors := st.stats.copy_errors + 1 },
      { st.results with file_not_found := st.results.file_not_found ++
        [⟨m.flat_ref, m.title, source_filename, source_file,
          "File not found in architect directory"⟩] }⟩)
  | some content =>
    let new_filename := generate_new_filename source_filename_with_ext m.flat_ref "sections"
    let dest_file := pjoin destination_path new_filename
    match copyBeh source_file dest_file with
    | some e =>
      (false, fs,
       ⟨{ st.stats with copy_errors := st.stats.copy_errors + 1 },
        { st.results with copy_errors := st.results.copy_errors ++
          [⟨m.flat_ref, m.title, source_filename, source_file, e⟩] }⟩)
    | none =>
      (true, writeFile fs dest_file content,
       ⟨st.stats,
        { st.results with successful_matches := st.results.successful_matches ++
          [⟨m.flat_ref, m.title, source_filename_with_ext, new_filename, source_file,
            dest_file, destination_path⟩] }⟩)

/-- The `for match in matches` loop of `process_files`: create the output
directory, copy, ignore the returned flag, continue with the next
match. -/
def processMatches (architect_path processed_path : String)
    (copyBeh : String → String → Option String) :
    List MatchInfo → FS → ProcState → FS × ProcState
  | [], fs, st => (fs, st)
  | m :: rest, fs, st =>
    let r1 := create_output_structure processed_path m.flat_ref fs
    let r2 := copy_file architect_path m.filename r1.1 m copyBeh r1.2 st
    processMatches architect_path processed_path copyBeh rest r2.2.1 r2.2.2

/-- Outcome of one run: the Python return value of `process_files`,
whether `print_statistics` ran, whether `generate_detailed_report` ran,
and the final state and filesystem. -/
structure RunResult where
  success : Bool
  statsPrinted : Bool
  reportEmitted : Bool
  state : ProcState
  fs : FS
deriving DecidableEq

/-- `FileProcessor.process_files`.  `loadResult` is `none` when
`load_spreadsheets` fails (its exception handler returns `False`), and
otherwise carries column D of the accommodation schedule and the
(filename, title) rows of the architect spreadsheet.  The run aborts
with failure on load failure or an empty reference list; with zero
matches it returns `True` early, before the statistics and the report;
otherwise it processes every match and then prints statistics and emits
the report. -/
def process_files (loadResult : Option (List (Option String) × List CatalogEntry))
    (architect_path processed_path : String)
    (copyBeh : String → String → Option String) (fs0 : FS) : RunResult :=
  match loadResult with
  | none => ⟨false, false, false, initState, fs0⟩
  | some (colD, catalog) =>
    let flat_refs := get_flat_references colD
    if flat_refs.isEmpty then ⟨false, false, false, initState, fs0⟩
    else
      let r := find_matching_sections flat_refs catalog initState
      if r.1.isEmpty then ⟨true, false, false, r.2, fs0⟩
      else
        let r2 := processMatches architect_path processed_path copyBeh r.1 fs0 r.2
        ⟨true, true, true, r2.2, r2.1⟩

/-! Spec-modelled definitions for the filename-derivation claim. -/

/-- Normalization as the spec words it: "normalize removes whitespace
from the key".  Modelled from the spec for comparison with the code,
which removes only spaces. -/
def spec_removeWhitespace (s : String) : String :=
  ⟨s.data.filter (fun c => !c.isWhitespace)⟩

/-- Derived output filename as the spec words it:
`"sections_" + normalize(key) + "_" + sourceBaseName + sourceExt`, the
source filename split at its last dot, extension defaulting to ".pdf",
with `normalize` removing whitespace.  Modelled from the spec. -/
def spec_derivedFilename (key sourceFilename : String) : String :=
  match rsplitDot sourceFilename with
  | some (base, ext) =>
    "sections_" ++ spec_removeWhitespace key ++ "_" ++ base ++ ("." ++ ext)
  | none =>
    "sections_" ++ spec_removeWhitespace key ++ "_" ++ sourceFilename ++ ".pdf"

/-- The same formula with `normalize` removing exactly the space
characters the code removes; the amended form of the claim. -/
def spec_derivedFilenameSpaces (key sourceFilename : String) : String :=
  match rsplitDot sourceFilename with
  | some (base, ext) =>
    "sections_" ++ removeSpaces key ++ "_" ++ base ++ ("." ++ ext)
  | none =>
    "sections_" ++ removeSpaces key ++ "_" ++ sourceFilename ++ ".pdf"

/-! Derived definitions used in theorem statements. -/

/-- The regex denoting one literal string (what the pattern compiler
produces for a metacharacter-free pattern). -/
def litRE : List Char → RE
  | [] => .eps
  | c :: cs => .cat (.chr c) (litRE cs)

/-- Number of catalog rows the code's per-row test selects for a flat
reference. -/
def selCount (flat_ref : String) (catalog : List CatalogEntry) : Nat :=
  (catalog.filter (fun e => codeSelects flat_ref e.title)).length

/-- Total number of per-match outcome records (success, source missing,
copy error) in a state. -/
def outcomeCount (st : ProcState) : Nat :=
  st.results.successful_matches.length + st.results.file_not_found.length +
    st.results.copy_errors.length

/-! Helper lemmas: strings and lists. -/

theorem strData_append (s t : String) : (s ++ t).data = s.data ++ t.data := rfl

theorem isPrefixOf_self_append (l1 l2 : List Char) : l1.isPrefixOf (l1 ++ l2) = true := by
  induction l1 with
  | nil => simp [List.isPrefixOf]
  | cons c cs ih => simp [List.isPrefixOf, ih]

theorem isSuffixOf_append (l1 l2 : List Char) : l1.isSuffixOf (l2 ++ l1) = true := by
  simp [List.isSuffixOf, List.reverse_append, isPrefixOf_self_append]

theorem filter_length_split {α : Type} (p : α → Bool) (l : List α) :
    (l.filter p).length + (l.filter (fun x => !p x)).length = l.length := by
  induction l with
  | nil => rfl
  | cons x xs ih => cases hx : p x <;> simp [List.filter, hx] <;> omega

/-! Helper lemmas: the derivative matcher. -/

theorem reMatchList_cons (r : RE) (c : Char) (cs : List Char) :
    reMatchList r (c :: cs) = reMatchList (r.deriv c) cs := rfl

theorem reMatchList_alt (r s : RE) (cs : List Char) :
    reMatchList (.alt r s) cs = (reMatchList r cs || reMatchList s cs) := by
  induction cs generalizing r s with
  | nil => rfl
  | cons c cs ih => simpa [reMatchList_cons, RE.deriv] using ih (r.deriv c) (s.deriv c)

theorem reMatchList_catEmp (r : RE) (cs : List Char) :
    reMatchList (.cat .emp r) cs = false := by
  induction cs generalizing r with
  | nil => rfl
  | cons c cs ih => simpa [reMatchList_cons, RE.deriv, RE.nullable] using ih r

theorem reMatchList_catEps (r : RE) (cs : List Char) :
    reMatchList (.cat .eps r) cs = reMatchList r cs := by
  cases cs with
  | nil => simp [reMatchList, RE.nullable]
  | cons c cs =>
    have h : reMatchList (.cat .eps r) (c :: cs)
        = reMatchList (.alt (.cat .emp r) (r.deriv c)) cs := rfl
    rw [h, reMatchList_alt, reMatchList_catEmp, reMatchList_cons]
    simp

theorem reMatchList_catChr (a : Char) (r : RE) (cs : List Char) :
    reMatchList (.cat (.chr a) r) (a :: cs) = reMatchList r cs := by
  rw [reMatchList_cons]
  simp [RE.deriv, RE.nullable, reMatchList_catEps]

theorem reMatchList_lit (cs : List Char) : reMatchList (litRE cs) cs = true := by
  induction cs with
  | nil => rfl
  | cons c cs ih => rw [litRE, reMatchList_catChr]; exact ih

theorem reMatchList_padRight (cs : List Char) (r : RE)
    (h : reMatchList r cs = true) :
    reMatchList (.cat r (.star .anyc)) cs = true := by
  induction cs generalizing r with
  | nil =>
    simp [reMatchList, RE.nullable] at h ⊢
    exact h
  | cons c cs ih =>
    rw [reMatchList_cons] at h ⊢
    cases hn : r.nullable with
    | true =>
      simp only [RE.deriv, hn, if_true, reMatchList_alt]
      rw [ih (r.deriv c) h]
      simp
    | false =>
      simp only [RE.deriv, hn, Bool.false_eq_true, if_false]
      exact ih (r.deriv c) h

theorem reMatchList_padLeft (cs : List Char) (t : RE)
    (h : reMatchList t cs = true) :
    reMatchList (.cat (.star .anyc) t) cs = true := by
  cases cs with
  | nil =>
    simp [reMatchList, RE.nullable] at h ⊢
    exact h
  | cons c cs =>
    rw [reMatchList_cons] at h ⊢
    simp only [RE.deriv, RE.nullable, if_true, reMatchList_alt]
    rw [h]
    simp

theorem reSearch_of_match (r : RE) (cs : List Char)
    (h : reMatchList r cs = true) : reSearch r cs = true :=
  reMatchList_padLeft cs _ (reMatchList_padRight cs r h)

/-! Helper lemmas: the pattern compiler on metacharacter-free patterns. -/

theorem parseAtom_ordinary (c : Char) (rest : List Char) (fuel : Nat)
    (hc : ordinaryChar c = true) (hf : 1 ≤ fuel) :
    parseAtom fuel (c :: rest) = some (.chr c, rest) := by
  obtain ⟨f, rfl⟩ : ∃ f, fuel = f + 1 := ⟨fuel - 1, by omega⟩
  have hmem : pyMetachars.contains c = false := by
    simpa [ordinaryChar] using hc
  have h1 : ¬ c = '(' := fun h => by subst h; exact absurd hmem (by decide)
  have h2 : ¬ c = '.' := fun h => by subst h; exact absurd hmem (by decide)
  have h3 : ¬ c = '\\' := fun h => by subst h; exact absurd hmem (by decide)
  have hmem2 : c ∉ pyMetachars := by simpa using hmem
  simp [parseAtom, h1, h2, h3, hmem, hmem2]

theorem parseRepeat_ordinary (c : Char) (rest : List Char) (fuel : Nat)
    (hc : ordinaryChar c = true)
    (hrest : ∀ x ∈ rest, ordinaryChar x = true)
    (hf : 2 ≤ fuel) :
    parseRepeat fuel (c :: rest) = some (.chr c, rest) := by
  obtain ⟨f, rfl⟩ : ∃ f, fuel = f + 1 := ⟨fuel - 1, by omega⟩
  rw [parseRepeat, parseAtom_ordinary c rest f hc (by omega)]
  cases rest with
  | nil => rfl
  | cons d rest2 =>
    have hd := hrest d (by simp)
    have h1 : ¬ d = '*' := fun h => by subst h; exact absurd hd (by decide)
    have h2 : ¬ d = '+' := fun h => by subst h; exact absurd hd (by decide)
    have h3 : ¬ d = '?' := fun h => by subst h; exact absurd hd (by decide)
    simp [h1, h2, h3]

theorem parseConcat_ordinary (cs : List Char) :
    ∀ fuel, (∀ x ∈ cs, ordinaryChar x = true) → 2 * cs.length + 2 ≤ fuel →
    parseConcat fuel cs = some (litRE cs, []) := by
  induction cs with
  | nil =>
    intro fuel h hf
    obtain ⟨f, rfl⟩ : ∃ f, fuel = f + 1 := ⟨fuel - 1, by omega⟩
    rfl
  | cons c rest ih =>
    intro fuel h hf
    obtain ⟨f, rfl⟩ : ∃ f, fuel = f + 1 := ⟨fuel - 1, by omega⟩
    have hc := h c (by simp)
    have hno : ¬ (c = ')' ∨ c = '|') := by
      rintro (h1 | h1) <;> (subst h1; exact absurd hc (by decide))
    have hlen : (c :: rest).length = rest.length + 1 := rfl
    rw [hlen] at hf
    have hrep := parseRepeat_ordinary c rest f hc (fun x hx => h x (by simp [hx])) (by omega)
    have hconc := ih f (fun x hx => h x (by simp [hx])) (by omega)
    rw [parseConcat, if_neg hno, hrep]
    simp [hconc, litRE]

theorem parseAlt_ordinary (cs : List Char) (fuel : Nat)
    (h : ∀ x ∈ cs, ordinaryChar x = true) (hf : 2 * cs.length + 3 ≤ fuel) :
    parseAlt fuel cs = some (litRE cs, []) := by
  obtain ⟨f, rfl⟩ : ∃ f, fuel = f + 1 := ⟨fuel - 1, by omega⟩
  rw [parseAlt, parseConcat_ordinary cs f h (by omega)]

theorem compilePattern_ordinary (s : String)
    (h : ∀ x ∈ s.data, ordinaryChar x = true) :
    compilePattern s = some (litRE s.data) := by
  have hl : s.length = s.data.length := rfl
  unfold compilePattern
  rw [parseAlt_ordinary s.data (4 * s.length + 4) h (by omega)]

/-- A metacharacter-free derived pattern selects every title whose
lowercase form is exactly the lowercase pattern. -/
theorem codeSelects_of_exact (k title : String)
    (hord : ∀ c ∈ (pyLowerStr ("Sections - " ++ k)).data, ordinaryChar c = true)
    (ht : pyLowerStr title = pyLowerStr ("Sections - " ++ k)) :
    codeSelects k title = true := by
  unfold codeSelects pyStrContainsCI
  rw [compilePattern_ordinary _ hord, ht]
  exact reSearch_of_match _ _ (reMatchList_lit _)

/-! Helper lemmas: row selection and the inner match loop. -/

theorem selectRowsFor_length (k : String) (catalog : List CatalogEntry) :
    ∀ n, (selectRowsFor k n catalog).length = selCount k catalog := by
  induction catalog with
  | nil => intro n; rfl
  | cons e rest ih =>
    intro n
    cases hsel : codeSelects k e.title with
    | true => simp [selectRowsFor, hsel, selCount, List.filter_cons, ih (n + 1)]
    | false => simp [selectRowsFor, hsel, selCount, List.filter_cons, ih (n + 1)]

theorem selectRowsFor_sound (k : String) (catalog : List CatalogEntry) :
    ∀ n p, p ∈ selectRowsFor k n catalog → codeSelects k (Prod.snd p).title = true := by
  induction catalog with
  | nil => intro n p hp; simp [selectRowsFor] at hp
  | cons e rest ih =>
    intro n p hp
    cases hsel : codeSelects k e.title with
    | true =>
      rw [selectRowsFor, if_pos hsel] at hp
      rcases List.mem_cons.mp hp with h | h
      · subst h; exact hsel
      · exact ih (n + 1) p h
    | false =>
      rw [selectRowsFor, if_neg (by simp [hsel])] at hp
      exact ih (n + 1) p hp

theorem selCount_ne_zero (k : String) (catalog : List CatalogEntry) (e : CatalogEntry)
    (he : e ∈ catalog) (hsel : codeSelects k e.title = true) :
    selCount k catalog ≠ 0 := by
  intro h0
  have hnil : catalog.filter (fun x => codeSelects k x.title) = [] :=
    List.length_eq_zero.mp h0
  rw [List.filter_eq_nil_iff] at hnil
  exact absurd hsel (by simpa using hnil e he)

theorem processHits_fst_mono (k : String) :
    ∀ (hits : List (Nat × CatalogEntry)) (acc : List MatchInfo) (st : ProcState)
      (x : MatchInfo), x ∈ acc → x ∈ (processHits k hits acc st).1 := by
  intro hits
  induction hits with
  | nil => intro acc st x hx; simpa [processHits] using hx
  | cons p rest ih =>
    intro acc st x hx
    obtain ⟨idx, e⟩ := p
    simp only [processHits]
    exact ih _ _ x (by simp [hx])

theorem processHits_fst_flat (k : String) :
    ∀ (hits : List (Nat × CatalogEntry)) (acc : List MatchInfo) (st : ProcState),
      hits ≠ [] → ∃ m ∈ (processHits k hits acc st).1, m.flat_ref = k := by
  intro hits acc st hne
  cases hits with
  | nil => exact absurd rfl hne
  | cons p rest =>
    obtain ⟨idx, e⟩ := p
    refine ⟨⟨k, e.title, e.filename, idx⟩, ?_, rfl⟩
    simp only [processHits]
    exact processHits_fst_mono k rest _ _ _ (by simp)

theorem processHits_state (k : String) :
    ∀ (hits : List (Nat × CatalogEntry)) (acc : List MatchInfo) (st : ProcState),
      (processHits k hits acc st).2.stats.matched = st.stats.matched + hits.length ∧
      (processHits k hits acc st).1.length = acc.length + hits.length ∧
      (processHits k hits acc st).2.stats.processed = st.stats.processed ∧
      (processHits k hits acc st).2.stats.not_found = st.stats.not_found ∧
      (processHits k hits acc st).2.stats.copy_errors = st.stats.copy_errors ∧
      (processHits k hits acc st).2.results.no_matches_found = st.results.no_matches_found ∧
      (processHits k hits acc st).2.results.unused_section_files = st.results.unused_section_files ∧
      (processHits k hits acc st).2.results.all_flat_refs = st.results.all_flat_refs := by
  intro hits
  induction hits with
  | nil => intro acc st; simp [processHits]
  | cons p rest ih =>
    intro acc st
    obtain ⟨idx, e⟩ := p
    obtain ⟨i1, i2, i3, i4, i5, i6, i7, i8⟩ :=
      ih (acc ++ [⟨k, e.title, e.filename, idx⟩])
        ⟨{ st.stats with matched := st.stats.matched + 1 },
         { st.results with
            all_section_files := markFirst e.filename e.title st.results.all_section_files }⟩
    simp only [processHits]
    refine ⟨?_, ?_, ?_, ?_, ?_, ?_, ?_, ?_⟩ <;>
      simp [i1, i2, i3, i4, i5, i6, i7, i8, List.length_append] <;> omega

theorem markFirst_mem (f t : String) :
    ∀ (l : List SectionFile) (rec : SectionFile), rec ∈ l →
      ¬(rec.filename = f ∧ rec.title = t) → rec ∈ markFirst f t l := by
  intro l
  induction l with
  | nil => intro rec h _; simp at h
  | cons sf rest ih =>
    intro rec hmem hne
    by_cases hcond : sf.filename = f ∧ sf.title = t
    · rw [markFirst, if_pos hcond]
      rcases List.mem_cons.mp hmem with h | h
      · subst h; exact absurd hcond hne
      · exact List.mem_cons_of_mem _ h
    · rw [markFirst, if_neg hcond]
      rcases List.mem_cons.mp hmem with h | h
      · subst h; exact List.mem_cons_self _ _
      · exact List.mem_cons_of_mem _ (ih rec h hne)

theorem processHits_preserves (k : String) (rec : SectionFile)
    (hrec : codeSelects k rec.title = false) :
    ∀ (hits : List (Nat × CatalogEntry)) (acc : List MatchInfo) (st : ProcState),
      (∀ p ∈ hits, codeSelects k (Prod.snd p).title = true) →
      rec ∈ st.results.all_section_files →
      rec ∈ (processHits k hits acc st).2.results.all_section_files := by
  intro hits
  induction hits with
  | nil => intro acc st _ h; simpa [processHits] using h
  | cons p rest ih =>
    intro acc st hall hmem
    obtain ⟨idx, e⟩ := p
    simp only [processHits]
    apply ih _ _ (fun q hq => hall q (by simp [hq]))
    apply markFirst_mem _ _ _ _ hmem
    rintro ⟨h1, h2⟩
    have hsel := hall (idx, e) (by simp)
    rw [← h2, hrec] at hsel
    exact Bool.noConfusion hsel

/-- Behaviour of the key loop when every derived pattern compiles: no
exception, monotone match accumulation, and the counter bookkeeping. -/
theorem matchLoop_spec (catalog : List CatalogEntry) :
    ∀ (keys : List String) (acc : List MatchInfo) (st : ProcState),
      (∀ k ∈ keys, (compilePattern (pyLowerStr ("Sections - " ++ k))).isSome = true) →
      ∃ ms st2, matchLoop catalog keys acc st = .ok (ms, st2) ∧
        (∀ x ∈ acc, x ∈ ms) ∧
        st2.stats.processed = st.stats.processed + keys.length ∧
        st2.stats.not_found = st.stats.not_found +
          (keys.filter (fun k => selCount k catalog == 0)).length ∧
        st2.stats.matched + acc.length = st.stats.matched + ms.length ∧
        st2.stats.copy_errors = st.stats.copy_errors ∧
        (∀ K ∈ keys, selCount K catalog ≠ 0 → ∃ m ∈ ms, m.flat_ref = K) := by
  intro keys
  induction keys with
  | nil =>
    intro acc st _
    exact ⟨acc, st, rfl, fun x hx => hx, by simp, by simp, by omega, rfl, by simp⟩
  | cons k rest ih =>
    intro acc st h
    have hk := h k (by simp)
    cases hsel : selectRowsFor k 0 catalog with
    | nil =>
      have hsc : selCount k catalog = 0 := by
        rw [← selectRowsFor_length k catalog 0, hsel]; rfl
      obtain ⟨ms, st2, heq, hmono, hp, hnf, hm, hce, hK⟩ :=
        ih acc
          ⟨⟨st.stats.processed + 1, st.stats.matched, st.stats.not_found + 1,
            st.stats.copy_errors⟩,
           ⟨st.results.successful_matches,
            st.results.no_matches_found ++
              [⟨k, "No matching section found in architect spreadsheet"⟩],
            st.results.file_not_found, st.results.copy_errors,
            st.results.unused_section_files, st.results.all_flat_refs,
            st.results.all_section_files⟩⟩
          (fun x hx => h x (by simp [hx]))
      refine ⟨ms, st2, ?_, hmono, ?_, ?_, ?_, ?_, ?_⟩
      · simp only [matchLoop, hk, if_true, hsel, List.isEmpty_nil]
        exact heq
      · simp only [List.length_cons]
        simp at hp
        omega
      · simp only [List.filter_cons, hsc, beq_self_eq_true, if_true, List.length_cons]
        simp at hnf
        omega
      · simp at hm
        omega
      · simpa using hce
      · intro K hK2 hscK
        rcases List.mem_cons.mp hK2 with hKk | hKr
        · exact absurd hsc (hKk ▸ hscK)
        · exact hK K hKr hscK
    | cons p0 hitsRest =>
      have hlen := selectRowsFor_length k catalog 0
      rw [hsel] at hlen
      have hscne : selCount k catalog ≠ 0 := by rw [← hlen]; simp
      have hb : (selCount k catalog == 0) = false := by
        cases hn : selCount k catalog with
        | zero => exact absurd hn hscne
        | succ n => rfl
      obtain ⟨j1, j2, j3, j4, j5, j6, j7, j8⟩ :=
        processHits_state k (p0 :: hitsRest) acc
          ⟨{ st.stats with processed := st.stats.processed + 1 }, st.results⟩
      obtain ⟨ms, st2, heq, hmono, hp, hnf, hm, hce, hK⟩ :=
        ih (processHits k (p0 :: hitsRest) acc
              ⟨{ st.stats with processed := st.stats.processed + 1 }, st.results⟩).1
          (processHits k (p0 :: hitsRest) acc
              ⟨{ st.stats with processed := st.stats.processed + 1 }, st.results⟩).2
          (fun x hx => h x (by simp [hx]))
      refine ⟨ms, st2, ?_, ?_, ?_, ?_, ?_, ?_, ?_⟩
      · simp only [matchLoop, hk, if_true, hsel, List.isEmpty_cons]
        exact heq
      · intro x hx
        exact hmono x (processHits_fst_mono k (p0 :: hitsRest) acc _ x hx)
      · simp only [List.length_cons]
        simp at hp j3
        omega
      · simp only [List.filter_cons, hb, Bool.false_eq_true, if_false]
        simp at hnf j4
        omega
      · simp at hm j1 j2
        omega
      · simp at hce j5
        omega
      · intro K hK2 hscK
        rcases List.mem_cons.mp hK2 with hKk | hKr
        · subst hKk
          obtain ⟨m, hm1, hm2⟩ := processHits_fst_flat K (p0 :: hitsRest) acc _ (by simp)
          exact ⟨m, hmono m hm1, hm2⟩
        · exact hK K hKr hscK

/-- A section-file record whose title no key selects survives the key
loop unmarked, and the loop never touches `unused_section_files`. -/
theorem matchLoop_preserve (catalog : List CatalogEntry) (rec : SectionFile) :
    ∀ (keys : List String) (acc : List MatchInfo) (st : ProcState) (ms : List MatchInfo)
      (st2 : ProcState),
      matchLoop catalog keys acc st = .ok (ms, st2) →
      (∀ k ∈ keys, codeSelects k rec.title = false) →
      rec ∈ st.results.all_section_files →
      rec ∈ st2.results.all_section_files ∧
        st2.results.unused_section_files = st.results.unused_section_files := by
  intro keys
  induction keys with
  | nil =>
    intro acc st ms st2 heq hks hmem
    simp only [matchLoop, Except.ok.injEq, Prod.mk.injEq] at heq
    obtain ⟨h1, h2⟩ := heq
    subst h2
    exact ⟨hmem, rfl⟩
  | cons k rest ih =>
    intro acc st ms st2 heq hks hmem
    cases hkc : (compilePattern (pyLowerStr ("Sections - " ++ k))).isSome with
    | false =>
      simp only [matchLoop, hkc, Bool.false_eq_true, if_false] at heq
      simp at heq
    | true =>
      simp only [matchLoop, hkc, if_true] at heq
      cases hsel : selectRowsFor k 0 catalog with
      | nil =>
        rw [hsel] at heq
        simp only [List.isEmpty_nil, if_true] at heq
        have hres := ih _ _ _ _ heq (fun x hx => hks x (by simp [hx])) (by simpa using hmem)
        simpa using hres
      | cons p0 hitsRest =>
        rw [hsel] at heq
        simp only [List.isEmpty_cons, Bool.false_eq_true, if_false] at heq
        have hmem2 : rec ∈ (processHits k (p0 :: hitsRest) acc
            ⟨{ st.stats with processed := st.stats.processed + 1 },
             st.results⟩).2.results.all_section_files := by
          apply processHits_preserves k rec (hks k (by simp))
          · intro p hp
            exact selectRowsFor_sound k catalog 0 p (by rw [hsel]; exact hp)
          · simpa using hmem
        obtain ⟨hin, hun⟩ := ih _ _ _ _ heq (fun x hx => hks x (by simp [hx])) hmem2
        obtain ⟨j1, j2, j3, j4, j5, j6, j7, j8⟩ :=
          processHits_state k (p0 :: hitsRest) acc
            ⟨{ st.stats with processed := st.stats.processed + 1 }, st.results⟩
        refine ⟨hin, ?_⟩
        rw [hun, j7]

/-! Helper lemmas: the reference extractor. -/

theorem uniqueFirstSeen_aux_nodup (xs : List String) :
    ∀ acc : List String, acc.Nodup →
      (xs.foldl (fun acc x => if acc.contains x then acc else acc ++ [x]) acc).Nodup := by
  induction xs with
  | nil => intro acc h; exact h
  | cons x rest ih =>
    intro acc h
    simp only [List.foldl]
    cases hc : acc.contains x with
    | true => simpa [hc] using ih acc h
    | false =>
      have hx : x ∉ acc := by simpa using hc
      have hnd : (acc ++ [x]).Nodup := by
        rw [List.nodup_append]
        refine ⟨h, List.nodup_singleton x, ?_⟩
        intro a ha hax
        simp at hax
        exact hx (hax ▸ ha)
      simpa [hc] using ih (acc ++ [x]) hnd

theorem uniqueFirstSeen_nodup (xs : List String) : (uniqueFirstSeen xs).Nodup :=
  uniqueFirstSeen_aux_nodup xs [] List.nodup_nil

theorem mem_uniqueFirstSeen_aux (xs : List String) :
    ∀ (acc : List String) (y : String),
      y ∈ xs.foldl (fun acc x => if acc.contains x then acc else acc ++ [x]) acc →
      y ∈ acc ∨ y ∈ xs := by
  induction xs with
  | nil => intro acc y h; exact Or.inl h
  | cons x rest ih =>
    intro acc y h
    simp only [List.foldl] at h
    cases hc : acc.contains x with
    | true =>
      rw [hc] at h
      simp only [if_true] at h
      rcases ih acc y h with h2 | h2
      · exact Or.inl h2
      · exact Or.inr (by simp [h2])
    | false =>
      rw [hc] at h
      simp only [Bool.false_eq_true, if_false] at h
      rcases ih (acc ++ [x]) y h with h2 | h2
      · rcases List.mem_append.mp h2 with h3 | h3
        · exact Or.inl h3
        · simp at h3
          exact Or.inr (by simp [h3])
      · exact Or.inr (by simp [h2])

theorem mem_uniqueFirstSeen (xs : List String) (y : String)
    (h : y ∈ uniqueFirstSeen xs) : y ∈ xs := by
  rcases mem_uniqueFirstSeen_aux xs [] y h with h2 | h2
  · simp at h2
  · exact h2

theorem foldl_keep_eq_filter :
    ∀ (L acc : List String), (∀ x ∈ L, pyStrip x = x) →
      L.foldl (fun acc ref => if keepRef (pyStrip ref) then acc ++ [pyStrip ref] else acc) acc
        = acc ++ L.filter keepRef := by
  intro L
  induction L with
  | nil => intro acc _; simp
  | cons x rest ih =>
    intro acc h
    have hx : pyStrip x = x := h x (by simp)
    simp only [List.foldl, hx, List.filter_cons]
    cases hk : keepRef x with
    | true =>
      simp only [hk, if_true]
      rw [ih (acc ++ [x]) (fun y hy => h y (by simp [hy]))]
      simp
    | false =>
      simp only [hk, Bool.false_eq_true, if_false]
      exact ih acc (fun y hy => h y (by simp [hy]))

/-- Under trim-invariant raw cells the extractor is the filtered
deduplicated value list. -/
theorem get_flat_references_eq_filter (colD : List (Option String))
    (h : ∀ s ∈ colD.filterMap id, pyStrip s = s) :
    get_flat_references colD = (uniqueFirstSeen (colD.filterMap id)).filter keepRef := by
  unfold get_flat_references
  rw [foldl_keep_eq_filter _ []
    (fun x hx => h x (mem_uniqueFirstSeen _ x hx))]
  simp

/-! Helper lemmas: source-name resolution and outcome records. -/

theorem pyEndsWithPdf_append (f : String) : pyEndsWithPdf (f ++ ".pdf") = true := by
  unfold pyEndsWithPdf pyEndsWith pyLowerStr
  have h1 : (f ++ ".pdf").data = f.data ++ ".pdf".data := rfl
  rw [h1, List.map_append]
  have h2 : ".pdf".data.map Char.toLower = ".pdf".data := by decide
  rw [h2]
  exact isSuffixOf_append _ _

/-- Every `copy_file` call appends exactly one outcome record. -/
theorem copy_file_outcomeCount (architect_path source_filename destination_path : String)
    (m : MatchInfo) (copyBeh : String → String → Option String) (fs : FS) (st : ProcState) :
    outcomeCount (copy_file architect_path source_filename destination_path m copyBeh fs st).2.2
      = outcomeCount st + 1 := by
  simp only [copy_file]
  cases hl : lookupFile fs (pjoin architect_path (resolvedSourceName source_filename)) with
  | none =>
    simp [outcomeCount]
    omega
  | some content =>
    cases hc : copyBeh (pjoin architect_path (resolvedSourceName source_filename))
        (pjoin destination_path
          (generate_new_filename (resolvedSourceName source_filename) m.flat_ref "sections")) with
    | none =>
      simp [outcomeCount]
      omega
    | some e =>
      simp [outcomeCount]
      omega

/-- The per-match loop appends exactly one outcome record per match: no
failure aborts it. -/
theorem processMatches_outcomeCount (architect_path processed_path : String)
    (copyBeh : String → String → Option String) :
    ∀ (msl : List MatchInfo) (fs : FS) (st : ProcState),
      outcomeCount (processMatches architect_path processed_path copyBeh msl fs st).2
        = outcomeCount st + msl.length := by
  intro msl
  induction msl with
  | nil => intro fs st; simp [processMatches]
  | cons m rest ih =>
    intro fs st
    simp only [processMatches, create_output_structure]
    rw [ih]
    rw [copy_file_outcomeCount]
    simp
    omega

/-! Claim theorems. -/

/-- C1: the spec claims the matcher selects a catalog entry iff its title
literally contains "Sections - " + key, with pattern metacharacters
matched literally.  The code instead passes the pattern to a regex
engine: at key "HT (A)" the matcher selects the title "Sections - HT A"
(the parentheses act as a regex group) and does not select the title
"Sections - HT (A)" (which literally contains the pattern), the exact
opposite of literal substring containment on both titles. -/
theorem c1_regex_vs_literal :
    (find_matching_sections ["HT (A)"]
        [⟨"F1", "Sections - HT A"⟩, ⟨"F2", "Sections - HT (A)"⟩] initState).1
      = [⟨"HT (A)", "Sections - HT A", "F1", 0⟩] ∧
    spec_literalSelects "HT (A)" "Sections - HT A" = false ∧
    spec_literalSelects "HT (A)" "Sections - HT (A)" = true :=
  ⟨by decide, by decide, by decide⟩

/-- C2 counterexample: for key "HT (A)" the catalog entry whose title is
exactly "Sections - " ++ key produces zero MatchRecords, refuting the
claim as stated. -/
theorem c2_counterexample :
    "Sections - HT (A)" = "Sections - " ++ "HT (A)" ∧
    (find_matching_sections ["HT (A)"] [⟨"F1", "Sections - HT (A)"⟩] initState).1 = [] :=
  ⟨rfl, by decide⟩

/-- C2 amended: when every key in the list is free of regex
metacharacters (so each derived pattern compiles and denotes its own
literal text), a catalog entry whose title is exactly "Sections - K" up
to letter case yields at least one MatchRecord for K. -/
theorem c2_exact_title_matched (keys : List String) (K : String)
    (catalog : List CatalogEntry) (e : CatalogEntry) (st0 : ProcState)
    (hord : ∀ k ∈ keys, ∀ c ∈ (pyLowerStr ("Sections - " ++ k)).data, ordinaryChar c = true)
    (hK : K ∈ keys) (he : e ∈ catalog)
    (ht : pyLowerStr e.title = pyLowerStr ("Sections - " ++ K)) :
    ∃ m ∈ (find_matching_sections keys catalog st0).1, m.flat_ref = K := by
  have hsel : codeSelects K e.title = true := codeSelects_of_exact K e.title (hord K hK) ht
  have hcnt : selCount K catalog ≠ 0 := selCount_ne_zero K catalog e he hsel
  have hcomp : ∀ k ∈ keys, (compilePattern (pyLowerStr ("Sections - " ++ k))).isSome = true := by
    intro k hk
    rw [compilePattern_ordinary _ (hord k hk)]
    rfl
  unfold find_matching_sections
  obtain ⟨ms, st2, heq, hmono, hp, hnf, hm, hce, hKK⟩ :=
    matchLoop_spec catalog keys [] (preMatchState keys catalog st0) hcomp
  rw [heq]
  exact hKK K hK hcnt

/-- C2 witness: a concrete metacharacter-free key matched by a title in
different letter case. -/
theorem c2_exact_title_matched_witness :
    (∀ k ∈ (["HT A"] : List String),
      ∀ c ∈ (pyLowerStr ("Sections - " ++ k)).data, ordinaryChar c = true) ∧
    "HT A" ∈ (["HT A"] : List String) ∧
    (⟨"F1", "SECTIONS - ht a"⟩ : CatalogEntry) ∈ ([⟨"F1", "SECTIONS - ht a"⟩] : List CatalogEntry) ∧
    pyLowerStr "SECTIONS - ht a" = pyLowerStr ("Sections - " ++ "HT A") ∧
    ∃ m ∈ (find_matching_sections ["HT A"] [⟨"F1", "SECTIONS - ht a"⟩] initState).1,
      m.flat_ref = "HT A" :=
  ⟨by decide, by decide, by decide, by decide,
   c2_exact_title_matched ["HT A"] "HT A" [⟨"F1", "SECTIONS - ht a"⟩]
     ⟨"F1", "SECTIONS - ht a"⟩ initState (by decide) (by decide) (by decide) (by decide)⟩

/-- C3 counterexample: deduplication happens on the raw cell values
before trimming, so the raw values " A" and "A " survive `.unique()` and
both trim to "A" — the output contains a duplicate, refuting the claim
as stated. -/
theorem c3_counterexample :
    get_flat_references [some " A", some "A "] = ["A", "A"] ∧
    ¬ (get_flat_references [some " A", some "A "]).Nodup :=
  ⟨by decide, by decide⟩

/-- C3 amended: deduplication is by raw (untrimmed) cell value in
first-seen order; when every non-null cell is already trimmed, the
output is duplicate-free, every key is trimmed and non-empty, and the
output preserves the first-seen order of the deduplicated values. -/
theorem c3_dedup_on_raw (colD : List (Option String))
    (h : ∀ s ∈ colD.filterMap id, pyStrip s = s) :
    (get_flat_references colD).Nodup ∧
    (∀ k ∈ get_flat_references colD, pyStrip k = k ∧ k ≠ "") ∧
    (get_flat_references colD).Sublist (uniqueFirstSeen (colD.filterMap id)) := by
  rw [get_flat_references_eq_filter colD h]
  refine ⟨(uniqueFirstSeen_nodup _).filter _, ?_, List.filter_sublist _⟩
  intro k hk
  obtain ⟨hmemU, hkeep⟩ := List.mem_filter.mp hk
  have hmemV := mem_uniqueFirstSeen _ k hmemU
  refine ⟨h k hmemV, ?_⟩
  intro hempty
  subst hempty
  exact absurd hkeep (by decide)

/-- C3 witness: a trimmed input with a duplicate raw value. -/
theorem c3_dedup_on_raw_witness :
    (∀ s ∈ ([some "A", some "B", some "A"] : List (Option String)).filterMap id,
      pyStrip s = s) ∧
    ((get_flat_references [some "A", some "B", some "A"]).Nodup ∧
     (∀ k ∈ get_flat_references [some "A", some "B", some "A"], pyStrip k = k ∧ k ≠ "") ∧
     (get_flat_references [some "A", some "B", some "A"]).Sublist
       (uniqueFirstSeen (([some "A", some "B", some "A"] : List (Option String)).filterMap id))) :=
  ⟨by decide, c3_dedup_on_raw [some "A", some "B", some "A"] (by decide)⟩

/-- Directory creation never changes the file table, so the existence
check after it sees the same files. -/
theorem lookupFile_mkdirP (fs : FS) (p q : String) :
    lookupFile (mkdirP fs p) q = lookupFile fs q := by
  unfold mkdirP lookupFile lookupIn
  split
  · rfl
  · rfl

/-- C4 counterexample: with an empty filesystem the source file is
missing, a SourceFileMissing outcome is recorded — and yet the per-key
output directory has been created, refuting "no directory is created". -/
theorem c4_counterexample :
    (processMatches "architect" "processed" (fun _ _ => none) [⟨"K", "T", "F1", 0⟩]
        ⟨[], []⟩ initState).2.results.file_not_found ≠ [] ∧
    (processMatches "architect" "processed" (fun _ _ => none) [⟨"K", "T", "F1", 0⟩]
        ⟨[], []⟩ initState).1.dirs = ["processed/K"] :=
  ⟨by decide, by decide⟩

/-- C4 amended: when the resolved source file is absent, the match is
recorded as a file-not-found outcome (and the copy-error counter is
bumped), no file is written — but the per-key output directory is still
created (idempotently) before the existence check. -/
theorem c4_missing_source (architect_path processed_path : String) (m : MatchInfo)
    (rest : List MatchInfo) (copyBeh : String → String → Option String) (fs : FS)
    (st : ProcState)
    (hmiss : lookupFile fs (pjoin architect_path (resolvedSourceName m.filename)) = none) :
    processMatches architect_path processed_path copyBeh (m :: rest) fs st
      = processMatches architect_path processed_path copyBeh rest
          (mkdirP fs (pjoin processed_path m.flat_ref))
          ⟨{ st.stats with copy_errors := st.stats.copy_errors + 1 },
           { st.results with file_not_found := st.results.file_not_found ++
              [⟨m.flat_ref, m.title, m.filename,
                pjoin architect_path (resolvedSourceName m.filename),
                "File not found in architect directory"⟩] }⟩ ∧
    (mkdirP fs (pjoin processed_path m.flat_ref)).files = fs.files := by
  constructor
  · simp only [processMatches, create_output_structure, copy_file, lookupFile_mkdirP, hmiss]
  · unfold mkdirP
    split
    · rfl
    · rfl

/-- C4 witness: the missing-source step at a concrete match and an empty
filesystem. -/
theorem c4_missing_source_witness :
    lookupFile ⟨[], []⟩ (pjoin "architect" (resolvedSourceName "F1")) = none ∧
    (processMatches "architect" "processed" (fun _ _ => none)
        (⟨"K", "T", "F1", 0⟩ :: []) ⟨[], []⟩ initState
      = processMatches "architect" "processed" (fun _ _ => none) []
          (mkdirP ⟨[], []⟩ (pjoin "processed" "K"))
          ⟨{ initState.stats with copy_errors := initState.stats.copy_errors + 1 },
           { initState.results with file_not_found := initState.results.file_not_found ++
              [⟨"K", "T", "F1", pjoin "architect" (resolvedSourceName "F1"),
                "File not found in architect directory"⟩] }⟩ ∧
     (mkdirP ⟨[], []⟩ (pjoin "processed" "K")).files = (⟨[], []⟩ : FS).files) :=
  ⟨by decide,
   c4_missing_source "architect" "processed" ⟨"K", "T", "F1", 0⟩ [] (fun _ _ => none)
     ⟨[], []⟩ initState (by decide)⟩

/-- C5 counterexample: a run whose input loads and whose single key
extracts, but matches nothing: the run returns success, yet the
statistics and report stages are skipped, refuting "emits the final
statistics and the multi-section report ... even when zero keys
match". -/
theorem c5_counterexample :
    get_flat_references [some "A"] ≠ [] ∧
    (process_files (some ([some "A"], [⟨"F1", "Elevations"⟩])) "architect" "processed"
        (fun _ _ => none) ⟨[], []⟩).success = true ∧
    (process_files (some ([some "A"], [⟨"F1", "Elevations"⟩])) "architect" "processed"
        (fun _ _ => none) ⟨[], []⟩).reportEmitted = false ∧
    (process_files (some ([some "A"], [⟨"F1", "Elevations"⟩])) "architect" "processed"
        (fun _ _ => none) ⟨[], []⟩).statsPrinted = false :=
  ⟨by decide, by decide, by decide, by decide⟩

/-- C5 amended: when loading succeeds and at least one key is extracted
the run returns success; the statistics and the report are emitted iff
at least one MatchRecord was produced — with zero matches the run
returns early, skipping both. -/
theorem c5_run_completion (colD : List (Option String)) (catalog : List CatalogEntry)
    (architect_path processed_path : String) (copyBeh : String → String → Option String)
    (fs0 : FS) (hrefs : get_flat_references colD ≠ []) :
    (process_files (some (colD, catalog)) architect_path processed_path copyBeh fs0).success
      = true ∧
    ((process_files (some (colD, catalog)) architect_path processed_path copyBeh fs0).reportEmitted
        = true
      ↔ (find_matching_sections (get_flat_references colD) catalog initState).1 ≠ []) ∧
    (process_files (some (colD, catalog)) architect_path processed_path copyBeh fs0).statsPrinted
      = (process_files (some (colD, catalog)) architect_path processed_path
          copyBeh fs0).reportEmitted := by
  have hne : (get_flat_references colD).isEmpty = false := by
    cases h : get_flat_references colD with
    | nil => exact absurd h hrefs
    | cons a l => rfl
  simp only [process_files, hne, Bool.false_eq_true, if_false]
  cases hm : (find_matching_sections (get_flat_references colD) catalog initState).1 with
  | nil => simp [hm]
  | cons m rest => simp [hm]

/-- C5 witness: a run with one key and one matching catalog row emits
the report. -/
theorem c5_run_completion_witness :
    get_flat_references [some "A"] ≠ [] ∧
    ((process_files (some ([some "A"], [⟨"F1", "Sections - A"⟩])) "architect" "processed"
        (fun _ _ => none) ⟨[], []⟩).success = true ∧
     ((process_files (some ([some "A"], [⟨"F1", "Sections - A"⟩])) "architect" "processed"
          (fun _ _ => none) ⟨[], []⟩).reportEmitted = true
       ↔ (find_matching_sections (get_flat_references [some "A"])
            [⟨"F1", "Sections - A"⟩] initState).1 ≠ []) ∧
     (process_files (some ([some "A"], [⟨"F1", "Sections - A"⟩])) "architect" "processed"
        (fun _ _ => none) ⟨[], []⟩).statsPrinted
       = (process_files (some ([some "A"], [⟨"F1", "Sections - A"⟩])) "architect" "processed"
          (fun _ _ => none) ⟨[], []⟩).reportEmitted) :=
  ⟨by decide,
   c5_run_completion [some "A"] [⟨"F1", "Sections - A"⟩] "architect" "processed"
     (fun _ _ => none) ⟨[], []⟩ (by decide)⟩

/-- C6 counterexample: one key whose derived pattern is an invalid regex
("HT (" — unbalanced parenthesis) raises inside the key loop; the
exception handler returns before `unused_section_files` is computed, so
a "Sections" title selected by no key is absent from it, refuting the
claim as stated. -/
theorem c6_counterexample :
    pyStrContainsCI "Sections" "Sections - X" = true ∧
    codeSelects "HT (" "Sections - X" = false ∧
    (find_matching_sections ["HT ("] [⟨"F1", "Sections - X"⟩]
        initState).2.results.unused_section_files = [] :=
  ⟨by decide, by decide, by decide⟩

/-- C6 amended: provided every key's derived pattern compiles (e.g. all
keys are free of regex metacharacters), every catalog entry whose title
contains "Sections" case-insensitively and is selected by no key's
pattern ends up in `unused_section_files`. -/
theorem c6_unselected_section_in_unused (keys : List String) (catalog : List CatalogEntry)
    (e : CatalogEntry) (st0 : ProcState)
    (hcomp : ∀ k ∈ keys, (compilePattern (pyLowerStr ("Sections - " ++ k))).isSome = true)
    (he : e ∈ catalog)
    (hsec : pyStrContainsCI "Sections" e.title = true)
    (hunsel : ∀ k ∈ keys, codeSelects k e.title = false) :
    (⟨e.filename, e.title, false⟩ : SectionFile)
      ∈ (find_matching_sections keys catalog st0).2.results.unused_section_files := by
  unfold find_matching_sections
  obtain ⟨ms, st2, heq, hmono, hp, hnf, hm, hce, hKK⟩ :=
    matchLoop_spec catalog keys [] (preMatchState keys catalog st0) hcomp
  rw [heq]
  have hrec0 : (⟨e.filename, e.title, false⟩ : SectionFile)
      ∈ (preMatchState keys catalog st0).results.all_section_files := by
    unfold preMatchState sectionMaskFiles
    refine List.mem_append.mpr (Or.inr ?_)
    exact List.mem_filterMap.mpr ⟨e, he, by simp [hsec]⟩
  obtain ⟨hin, hun⟩ :=
    matchLoop_preserve catalog ⟨e.filename, e.title, false⟩ keys []
      (preMatchState keys catalog st0) ms st2 heq
      (fun k hk => hunsel k hk) hrec0
  unfold addUnused
  refine List.mem_append.mpr (Or.inr ?_)
  exact List.mem_filter.mpr ⟨hin, rfl⟩

/-- C6 witness: a key that selects nothing and a "Sections" entry that
lands in the unused list. -/
theorem c6_unselected_section_in_unused_witness :
    (∀ k ∈ (["HT A"] : List String),
      (compilePattern (pyLowerStr ("Sections - " ++ k))).isSome = true) ∧
    (⟨"F1", "Sections - B"⟩ : CatalogEntry) ∈ ([⟨"F1", "Sections - B"⟩] : List CatalogEntry) ∧
    pyStrContainsCI "Sections" "Sections - B" = true ∧
    (∀ k ∈ (["HT A"] : List String), codeSelects k "Sections - B" = false) ∧
    (⟨"F1", "Sections - B", false⟩ : SectionFile)
      ∈ (find_matching_sections ["HT A"] [⟨"F1", "Sections - B"⟩]
          initState).2.results.unused_section_files :=
  ⟨by decide, by decide, by decide, by decide,
   c6_unselected_section_in_unused ["HT A"] [⟨"F1", "Sections - B"⟩]
     ⟨"F1", "Sections - B"⟩ initState (by decide) (by decide) (by decide) (by decide)⟩

/-- C7 counterexample: the code's normalization removes only space
characters, not all whitespace: a key holding a tab keeps the tab in the
derived filename, differing from the spec formula with whitespace
removal. -/
theorem c7_counterexample :
    generate_new_filename "F.pdf" "HT\tA" "sections"
      ≠ spec_derivedFilename "HT\tA" "F.pdf" := by decide

/-- C7 amended: the derived filename is exactly
"sections_" + removeSpaces(key) + "_" + base + ext (source filename
split at its last dot, extension defaulting to ".pdf"), where the
normalization removes space characters only; in particular key
"HT A 3B4P" with source "ARC-101.pdf" yields
"sections_HTA3B4P_ARC-101.pdf". -/
theorem c7_filename_formula :
    (∀ key sourceFilename : String,
      generate_new_filename sourceFilename key "sections"
        = spec_derivedFilenameSpaces key sourceFilename) ∧
    generate_new_filename "ARC-101.pdf" "HT A 3B4P" "sections"
      = "sections_HTA3B4P_ARC-101.pdf" := by
  constructor
  · intro key f
    unfold generate_new_filename spec_derivedFilenameSpaces
    have hs : ("sections" : String) ++ "_" = "sections_" := by decide
    cases rsplitDot f with
    | none => rw [← hs]
    | some p =>
      obtain ⟨base, ext⟩ := p
      rw [← hs]
  · decide

/-- C8 counterexample: a stored filename ending in ".PDF" is kept as-is
(the suffix test lowercases first), so the looked-up path does not end
in the exact lowercase ".pdf", refuting "only an exact '.pdf' path is
ever looked up". -/
theorem c8_counterexample :
    resolvedSourceName "A.PDF" = "A.PDF" ∧
    pyEndsWith (resolvedSourceName "A.PDF") ".pdf" = false :=
  ⟨by decide, by decide⟩

/-- C8 amended: exactly one source path is resolved per match —
`".pdf"` is appended when the stored filename does not already end in
".pdf" case-insensitively, and the resolved name always ends in ".pdf"
up to letter case (an existing ".PDF"-style suffix is preserved, not
rewritten). -/
theorem c8_resolved_name (f : String) :
    resolvedSourceName f = (if pyEndsWithPdf f then f else f ++ ".pdf") ∧
    pyEndsWithPdf (resolvedSourceName f) = true := by
  refine ⟨rfl, ?_⟩
  unfold resolvedSourceName
  cases h : pyEndsWithPdf f with
  | true => simp [h]
  | false => simp [h, pyEndsWithPdf_append]

/-- C9: when the copy primitive fails, `copy_file` returns normally with
a copy-error outcome record carrying the underlying error description
(the filesystem untouched, the copy-error counter bumped) — the
function-level exception handler converts the raised exception into a
return value, and the per-match loop appends exactly one outcome record
per match, so the run always continues through every match. -/
theorem c9_copy_error_captured (architect_path destination_path : String) (m : MatchInfo)
    (copyBeh : String → String → Option String) (fs : FS) (st : ProcState)
    (content e : String)
    (hsrc : lookupFile fs (pjoin architect_path (resolvedSourceName m.filename))
      = some content)
    (hfail : copyBeh (pjoin architect_path (resolvedSourceName m.filename))
        (pjoin destination_path
          (generate_new_filename (resolvedSourceName m.filename) m.flat_ref "sections"))
      = some e) :
    copy_file architect_path m.filename destination_path m copyBeh fs st
      = (false, fs,
         ⟨{ st.stats with copy_errors := st.stats.copy_errors + 1 },
          { st.results with copy_errors := st.results.copy_errors ++
            [⟨m.flat_ref, m.title, m.filename,
              pjoin architect_path (resolvedSourceName m.filename), e⟩] }⟩) ∧
    (∀ (processed_path : String) (msl : List MatchInfo) (fs2 : FS) (st2 : ProcState),
      outcomeCount (processMatches architect_path processed_path copyBeh msl fs2 st2).2
        = outcomeCount st2 + msl.length) := by
  constructor
  · simp only [copy_file, hsrc, hfail]
  · intro processed_path msl fs2 st2
    exact processMatches_outcomeCount architect_path processed_path copyBeh msl fs2 st2

/-- C9 witness: a concrete failing copy ("disk full") on an existing
source file. -/
theorem c9_copy_error_captured_witness :
    lookupFile ⟨[], [(pjoin "architect" "F1.pdf", "c")]⟩
        (pjoin "architect" (resolvedSourceName "F1")) = some "c" ∧
    ((fun _ _ => some "disk full" : String → String → Option String)
        (pjoin "architect" (resolvedSourceName "F1"))
        (pjoin "processed/K" (generate_new_filename (resolvedSourceName "F1") "K" "sections"))
      = some "disk full") ∧
    (copy_file "architect" "F1" "processed/K" ⟨"K", "T", "F1", 0⟩
        (fun _ _ => some "disk full") ⟨[], [(pjoin "architect" "F1.pdf", "c")]⟩ initState
      = (false, ⟨[], [(pjoin "architect" "F1.pdf", "c")]⟩,
         ⟨{ initState.stats with copy_errors := initState.stats.copy_errors + 1 },
          { initState.results with copy_errors := initState.results.copy_errors ++
            [⟨"K", "T", "F1", pjoin "architect" (resolvedSourceName "F1"), "disk full"⟩] }⟩) ∧
     (∀ (processed_path : String) (msl : List MatchInfo) (fs2 : FS) (st2 : ProcState),
       outcomeCount (processMatches "architect" processed_path (fun _ _ => some "disk full")
            msl fs2 st2).2
         = outcomeCount st2 + msl.length)) :=
  ⟨by decide, by decide,
   c9_copy_error_captured "architect" "processed/K" ⟨"K", "T", "F1", 0⟩
     (fun _ _ => some "disk full") ⟨[], [(pjoin "architect" "F1.pdf", "c")]⟩ initState
     "c" "disk full" (by decide) (by decide)⟩

/-- C10 counterexample: a key whose derived pattern is an invalid regex
aborts the key loop after `processed` was bumped but before the
not-found bookkeeping: `not_found` stays 0 although one key (of one)
matched zero catalog rows, refuting the invariant as stated. -/
theorem c10_counterexample :
    (find_matching_sections ["HT ("] [⟨"F1", "Sections - X"⟩]
        initState).2.stats.processed = 1 ∧
    (find_matching_sections ["HT ("] [⟨"F1", "Sections - X"⟩]
        initState).2.stats.not_found = 0 ∧
    ((["HT ("] : List String).filter
        (fun k => selCount k [⟨"F1", "Sections - X"⟩] == 0)).length = 1 :=
  ⟨by decide, by decide, by decide⟩

/-- C10 amended: provided every key's derived pattern compiles, after
the matching stage `processed` equals the number of input keys,
`not_found` equals the number of keys selecting zero catalog rows,
`processed` splits as `not_found` plus the number of keys with at least
one selected row, and `matched` equals the number of MatchRecords
produced. -/
theorem c10_stats_invariant (keys : List String) (catalog : List CatalogEntry)
    (hcomp : ∀ k ∈ keys, (compilePattern (pyLowerStr ("Sections - " ++ k))).isSome = true) :
    (find_matching_sections keys catalog initState).2.stats.processed = keys.length ∧
    (find_matching_sections keys catalog initState).2.stats.not_found
      = (keys.filter (fun k => selCount k catalog == 0)).length ∧
    keys.length = (find_matching_sections keys catalog initState).2.stats.not_found
      + (keys.filter (fun k => !(selCount k catalog == 0))).length ∧
    (find_matching_sections keys catalog initState).2.stats.matched
      = (find_matching_sections keys catalog initState).1.length := by
  unfold find_matching_sections
  obtain ⟨ms, st2, heq, hmono, hp, hnf, hm, hce, hKK⟩ :=
    matchLoop_spec catalog keys [] (preMatchState keys catalog initState) hcomp
  rw [heq]
  have hsplit := filter_length_split (fun k => selCount k catalog == 0) keys
  simp only [addUnused]
  simp [preMatchState, initState] at hp hnf hm
  refine ⟨?_, ?_, ?_, ?_⟩ <;> omega

/-- C10 witness: two metacharacter-free keys, one matched and one not. -/
theorem c10_stats_invariant_witness :
    (∀ k ∈ (["HT A", "HT B"] : List String),
      (compilePattern (pyLowerStr ("Sections - " ++ k))).isSome = true) ∧
    ((find_matching_sections ["HT A", "HT B"] [⟨"F1", "Sections - HT A"⟩]
        initState).2.stats.processed = (["HT A", "HT B"] : List String).length ∧
     (find_matching_sections ["HT A", "HT B"] [⟨"F1", "Sections - HT A"⟩]
        initState).2.stats.not_found
       = ((["HT A", "HT B"] : List String).filter
          (fun k => selCount k [⟨"F1", "Sections - HT A"⟩] == 0)).length ∧
     (["HT A", "HT B"] : List String).length
       = (find_matching_sections ["HT A", "HT B"] [⟨"F1", "Sections - HT A"⟩]
            initState).2.stats.not_found
         + ((["HT A", "HT B"] : List String).filter
            (fun k => !(selCount k [⟨"F1", "Sections - HT A"⟩] == 0))).length ∧
     (find_matching_sections ["HT A", "HT B"] [⟨"F1", "Sections - HT A"⟩]
        initState).2.stats.matched
       = (find_matching_sections ["HT A", "HT B"] [⟨"F1", "Sections - HT A"⟩]
          initState).1.length) :=
  ⟨by decide,
   c10_stats_invariant ["HT A", "HT B"] [⟨"F1", "Sections - HT A"⟩] (by decide)⟩
